import Mathlib

/-!
Verification of the Resistor Color-Code Converter core of the
ELEC2645 unit-2 toolbox (`src/funcs.c`).

Doubles are embedded as exact rationals (`ℚ`) and C integers as `ℤ`/`ℕ`,
except that the decoder's double-to-`int` cast is modelled with the 32-bit
`int` range: its operand can exceed `INT_MAX` (see `cIntCast`), and that
overflow is part of what is verified here.  Console/file side effects are
explicit data: the input stream is a list of lines, the log file a list of
lines.
-/

namespace Funcs

/-! ## Band tables (src/funcs.c lines 138-153) -/

/-- Digit band color names (Band 1 & 2), `digit_color_names` in the source. -/
def digit_color_names : List String :=
  ["0 Black", "1 Brown", "2 Red", "3 Orange", "4 Yellow",
   "5 Green", "6 Blue", "7 Violet", "8 Grey", "9 White"]

/-- Multiplier band color names (Band 3), `multiplier_color_names` in the source. -/
def multiplier_color_names : List String :=
  ["0 Black x1", "1 Brown x10", "2 Red x100", "3 Orange x1k",
   "4 Yellow x10k", "5 Green x100k", "6 Blue x1M", "7 Violet x10M",
   "8 Grey x100M", "9 White x1G", "10 Gold x0.1", "11 Silver x0.01"]

/-- Actual multiplier values, `multiplier_values` in the source
(`{1.0, 10.0, 100.0, 1e3, 1e4, 1e5, 1e6, 1e7, 1e8, 1e9, 0.1, 0.01}`). -/
def multiplier_values : List ℚ :=
  [1, 10, 100, 1000, 10000, 100000, 1000000, 10000000, 100000000,
   1000000000, 1/10, 1/100]

/-! ## Color→Resistance encoder (src/funcs.c lines 205-207) -/

/-- The computational core of `rcc_color_to_resistance`:
`base = b1 * 10 + b2; R = base * multiplier_values[m];`.
The inputs are pre-validated by `read_int` to `b1, b2 ∈ [0,9]`, `m ∈ [0,11]`,
so the array access is in bounds; out-of-range `m` defaults to `0` here. -/
def rcc_color_to_resistance (b1 b2 m : ℕ) : ℚ :=
  ((b1 : ℚ) * 10 + (b2 : ℚ)) * multiplier_values.getD m 0

/-! ## Resistance→Color decoder (src/funcs.c lines 237-246) -/

/-- C cast `(int)q` of a double value to a 32-bit `int`: truncation toward
zero when the truncated value is representable.  When it is not (the
truncated value lies outside `[-2^31, 2^31 - 1]`), the conversion is
undefined behavior (C11 6.3.1.4p1); it is modelled here as the typical
x86-64 `cvttsd2si` result `INT_MIN = -2^31`.  The decoder reaches the
unrepresentable case for resistances from about `2.1475e18` up, because the
first normalization loop stops dividing at exponent 9: see
`decode_overflow_out_of_bounds`. -/
def cIntCast (q : ℚ) : ℤ :=
  let t := if 0 ≤ q then ⌊q⌋ else ⌈q⌉
  if -2147483648 ≤ t ∧ t ≤ 2147483647 then t else -2147483648

/-- First normalization loop, `while (base >= 100 && m < 9) { base /= 10; m++; }`,
as a fuel-indexed recursion.  Each iteration increments `m` and the guard
requires `m < 9`, so fuel `9` (from `m = 0`, generally `9 - m`) is exact:
`normDown_exit` below proves the guard fails at the result. -/
def normDown : ℕ → ℚ → ℕ → ℚ × ℕ
  | 0, b, m => (b, m)
  | f + 1, b, m =>
    if 100 ≤ b ∧ m < 9 then normDown f (b / 10) (m + 1) else (b, m)

/-- Second normalization loop, `while (base < 10 && m > 0) { base *= 10; m--; }`.
Each iteration decrements `m` and the guard requires `m > 0`, so fuel `m` is
exact: `normUp_exit` below proves the guard fails at the result. -/
def normUp : ℕ → ℚ → ℕ → ℚ × ℕ
  | 0, b, m => (b, m)
  | f + 1, b, m =>
    if b < 10 ∧ 0 < m then normUp f (b * 10) (m - 1) else (b, m)

/-- The computational core of `rcc_resistance_to_color`: from the entered
resistance `R` to the triple `(d1, d2, m)` of band indices.

```
base = R;
while (base >= 100 && m < 9) { base /= 10; m++; }
while (base < 10 && m > 0) { base *= 10; m--; }
rounded = (int)(base + 0.5);
if (rounded >= 100) { rounded = 10; m++; }
d1 = rounded / 10;
d2 = rounded % 10;
```
C `/` and `%` on `int` are truncating division and remainder, `Int.tdiv` and
`Int.tmod`; the cast into the `int` variable `rounded` is `cIntCast`. -/
def rcc_resistance_to_color (R : ℚ) : ℤ × ℤ × ℕ :=
  let p := normDown 9 R 0
  let q := normUp p.2 p.1 p.2
  let rounded := cIntCast (q.1 + 1/2)
  let rm : ℤ × ℕ := if 100 ≤ rounded then (10, q.2 + 1) else (rounded, q.2)
  (Int.tdiv rm.1 10, Int.tmod rm.1 10, rm.2)

/-! ## Spec-side definitions

These follow the wording of the design document, for comparison with the
definitions above, which are translated from `src/funcs.c`. -/

/-- Spec §4.3: multiplier values at indices 0–9 are `10^index`; indices
10 and 11 are the fractional exceptions `0.1` and `0.01` (gold/silver). -/
def multiplierValue (i : ℕ) : ℚ :=
  if i ≤ 9 then 10 ^ i else if i = 10 then 1/10 else 1/100

/-- Spec §4.5 step 2: "While `base >= 100` and `multiplierExponent < 9`:
divide `base` by 10, increment `multiplierExponent`." -/
def specNormalizeDown : ℕ → ℚ → ℕ → ℚ × ℕ
  | 0, b, m => (b, m)
  | f + 1, b, m =>
    if 100 ≤ b ∧ m < 9 then specNormalizeDown f (b / 10) (m + 1) else (b, m)

/-- Spec §4.5 step 3: "While `base < 10` and `multiplierExponent > 0`:
multiply `base` by 10, decrement `multiplierExponent`." -/
def specNormalizeUp : ℕ → ℚ → ℕ → ℚ × ℕ
  | 0, b, m => (b, m)
  | f + 1, b, m =>
    if b < 10 ∧ 0 < m then specNormalizeUp f (b * 10) (m - 1) else (b, m)

/-- Spec §4.5 step 4: "`roundedTwoDigit = round(base)` (round-half-up,
i.e. `floor(base + 0.5)`)." -/
def specRound (q : ℚ) : ℤ :=
  ⌊q + 1/2⌋

/-- Spec §4.5 steps 1–6: normalize, round half-up, carry when the rounded
value reaches 100, then split into the two digits by integer division and
remainder by 10. -/
def specDecode (R : ℚ) : ℤ × ℤ × ℕ :=
  let p := specNormalizeDown 9 R 0
  let q := specNormalizeUp p.2 p.1 p.2
  let rounded := specRound q.1
  let rm : ℤ × ℕ := if 100 ≤ rounded then (10, q.2 + 1) else (rounded, q.2)
  (Int.tdiv rm.1 10, Int.tmod rm.1 10, rm.2)

/-! ## Engineering-notation formatter (src/funcs.c lines 96-108) -/

/-- The unit label chosen by `print_resistance_value`. -/
inductive ResistanceUnit : Type
  | ohm : ResistanceUnit
  | kiloOhm : ResistanceUnit
  | megaOhm : ResistanceUnit
deriving DecidableEq

/-- The computational core of `print_resistance_value`: the displayed value
`disp` and the unit label.

```
double disp = R; const char *unit = "Ω";
if (fabs(R) >= 1e6)      { disp = R / 1e6; unit = "MΩ"; }
else if (fabs(R) >= 1e3) { disp = R / 1e3; unit = "kΩ"; }
```
-/
def print_resistance_value (R : ℚ) : ℚ × ResistanceUnit :=
  if 1000000 ≤ |R| then (R / 1000000, ResistanceUnit.megaOhm)
  else if 1000 ≤ |R| then (R / 1000, ResistanceUnit.kiloOhm)
  else (R, ResistanceUnit.ohm)

/-- The printf format used by `print_resistance_value`
(`printf("Approx resistance: %.4g %s\n", disp, unit)`):
a 4-significant-digit general numeric format. -/
def print_resistance_format : String :=
  "Approx resistance: %.4g %s\n"

/-! ## Validated input reader (src/funcs.c lines 15-53)

The input stream is modelled as the list of lines `fgets` returns, each
without imposed structure (a real line ends in `'\n'` unless truncated or
at end of file). -/

/-- C locale `isspace`: space, `\t`, `\n`, vertical tab (11), form feed
(12), `\r`. -/
def isCSpace (c : Char) : Bool :=
  c == ' ' || c == '\t' || c == '\n' || c == Char.ofNat 11 ||
    c == Char.ofNat 12 || c == '\r'

/-- Value of a string of decimal digit characters, most significant first. -/
def digitsToNat (ds : List Char) : ℕ :=
  ds.foldl (fun a c => a * 10 + (c.toNat - 48)) 0

/-- The digit-consuming phase of `strtol`: reads the maximal leading run of
decimal digits; fails (C: `endptr == buf`) when there is none.  Returns the
value and the unconsumed suffix (`endptr`). -/
def strtolDigits (s : List Char) : Option (ℕ × List Char) :=
  let ds := s.takeWhile Char.isDigit
  if ds.isEmpty then none else some (digitsToNat ds, s.dropWhile Char.isDigit)

/-- `strtol(buf, &endptr, 10)`, on the unbounded integers: skip leading
whitespace, then an optional sign, then digits.  `none` models the
no-conversion case `endptr == buf` (a sign with no digits also resets
`endptr` to `buf`).  Overflow clamping to `LONG_MAX`/`LONG_MIN` is not
modelled: the program compares the result against `int`-range bounds, and a
clamped value is rejected by the same range check that rejects the true
value. -/
def strtol (s : List Char) : Option (ℤ × List Char) :=
  let t := s.dropWhile isCSpace
  match t with
  | '-' :: r => (strtolDigits r).map (fun p => (-(p.1 : ℤ), p.2))
  | '+' :: r => (strtolDigits r).map (fun p => ((p.1 : ℤ), p.2))
  | _ => (strtolDigits t).map (fun p => ((p.1 : ℤ), p.2))

/-- The post-number check of `read_int`: skip spaces and tabs
(`while (*endptr == ' ' || *endptr == '\t') endptr++;`), then require the
line terminator (`*endptr == '\n'`) or the end of the string
(`*endptr == '\0'`). -/
def trailing_ok (s : List Char) : Bool :=
  match s.dropWhile (fun c => c == ' ' || c == '\t') with
  | [] => true
  | c :: _ => c == '\n'

/-- One rejected attempt: the diagnostic is printed and the loop continues
with the next line (`continue` in the source). -/
def bumpAttempt (r : Option (ℤ × ℕ)) : Option (ℤ × ℕ) :=
  r.map (fun p => (p.1, p.2 + 1))

/-- The computational core of `read_int(prompt, min, max)` on a stream of
input lines.  Returns `some (val, k)` when the loop returns `val` after `k`
rejected attempts (each printing one diagnostic), and `none` when `fgets`
fails (end of input), where the source process exits with status 1. -/
def read_int (min max : ℤ) : List String → Option (ℤ × ℕ)
  | [] => none
  | line :: rest =>
    match strtol line.data with
    | none => bumpAttempt (read_int min max rest)
    | some (val, endp) =>
      if trailing_ok endp then
        if val < min ∨ max < val then bumpAttempt (read_int min max rest)
        else some (val, 0)
      else bumpAttempt (read_int min max rest)

/-- Spec §4.1: a single attempt succeeds exactly when the line contains a
parseable integer, only whitespace (the source's space/tab skip, then the
line terminator) follows it, and the value lies within `[min, max]`; the
accepted value is returned. -/
def validLine (min max : ℤ) (line : String) : Option ℤ :=
  match strtol line.data with
  | none => none
  | some (val, endp) =>
    if trailing_ok endp ∧ min ≤ val ∧ val ≤ max then some val else none

/-! ## Save step (src/funcs.c lines 112-133)

The log file is modelled as the list of its lines; `response` is the line
read by `fgets` for the confirmation prompt (`none` when `fgets` fails at
end of input — the source then returns without touching the log and
without exiting). -/

/-- The computational core of `ask_and_save`: the log contents after the
call.  `fprintf(fp, "%s\n", summary)` appends exactly one line; `fopen` is
modelled as succeeding (on failure the source prints a message and leaves
the log unchanged). -/
def ask_and_save (summary : String) (response : Option String)
    (log : List String) : List String :=
  match response with
  | none => log
  | some s =>
    match s.data.head? with
    | some c => if c = 'y' ∨ c = 'Y' then log ++ [summary] else log
    | none => log

/-- The acceptance condition of the claim: the response exists and its
first character is `'y'` or `'Y'`. -/
def responseAccepts (response : Option String) : Prop :=
  ∃ s, response = some s ∧
    (s.data.head? = some 'y' ∨ s.data.head? = some 'Y')

instance (response : Option String) : Decidable (responseAccepts response) :=
  match response with
  | none =>
    Decidable.isFalse (by simp [responseAccepts])
  | some s =>
    decidable_of_iff
      (s.data.head? = some 'y' ∨ s.data.head? = some 'Y')
      (by simp [responseAccepts])

/-! ## Loop invariants of the decoder's normalization loops -/

lemma normDown_fst_pos (f : ℕ) : ∀ (b : ℚ) (m : ℕ), 0 < b → 0 < (normDown f b m).1 := by
  induction f with
  | zero => intro b m hb; simpa [normDown] using hb
  | succ f ih =>
    intro b m hb
    simp only [normDown]
    split
    · exact ih _ _ (by positivity)
    · exact hb

lemma normDown_snd_le (f : ℕ) : ∀ (b : ℚ) (m : ℕ), m ≤ 9 → (normDown f b m).2 ≤ 9 := by
  induction f with
  | zero => intro b m hm; simpa [normDown] using hm
  | succ f ih =>
    intro b m hm
    simp only [normDown]
    split
    · next h => exact ih _ _ (by omega)
    · exact hm

/-- Fuel `f ≥ 9 - m` suffices for the first loop: the guard fails at the
result, so `normDown` computes the while loop's exit state. -/
lemma normDown_exit (f : ℕ) : ∀ (b : ℚ) (m : ℕ), 9 ≤ f + m →
    ¬(100 ≤ (normDown f b m).1 ∧ (normDown f b m).2 < 9) := by
  induction f with
  | zero =>
    intro b m hm
    simp only [normDown]
    omega
  | succ f ih =>
    intro b m hm
    simp only [normDown]
    split
    · next h => exact ih _ _ (by omega)
    · next h => exact h

lemma normUp_fst_pos (f : ℕ) : ∀ (b : ℚ) (m : ℕ), 0 < b → 0 < (normUp f b m).1 := by
  induction f with
  | zero => intro b m hb; simpa [normUp] using hb
  | succ f ih =>
    intro b m hb
    simp only [normUp]
    split
    · exact ih _ _ (by positivity)
    · exact hb

lemma normUp_snd_le (f : ℕ) : ∀ (b : ℚ) (m : ℕ), (normUp f b m).2 ≤ m := by
  induction f with
  | zero => intro b m; simp [normUp]
  | succ f ih =>
    intro b m
    simp only [normUp]
    split
    · exact le_trans (ih _ _) (by omega)
    · exact le_refl m

/-- Fuel `f ≥ m` suffices for the second loop: the guard fails at the
result, so `normUp` computes the while loop's exit state. -/
lemma normUp_exit (f : ℕ) : ∀ (b : ℚ) (m : ℕ), m ≤ f →
    ¬((normUp f b m).1 < 10 ∧ 0 < (normUp f b m).2) := by
  induction f with
  | zero =>
    intro b m hm
    simp only [normUp]
    omega
  | succ f ih =>
    intro b m hm
    simp only [normUp]
    split
    · next h => exact ih _ _ (by omega)
    · next h => exact h

lemma normUp_fst_lt (f : ℕ) : ∀ (b : ℚ) (m : ℕ), b < 100 → (normUp f b m).1 < 100 := by
  induction f with
  | zero => intro b m hb; simpa [normUp] using hb
  | succ f ih =>
    intro b m hb
    simp only [normUp]
    split
    · next h => exact ih _ _ (by nlinarith [h.1])
    · exact hb

/-! ## The spec's loops compute the same states as the source's loops -/

lemma specNormalizeDown_eq (f : ℕ) : ∀ (b : ℚ) (m : ℕ),
    specNormalizeDown f b m = normDown f b m := by
  induction f with
  | zero => intro b m; rfl
  | succ f ih =>
    intro b m
    simp only [specNormalizeDown, normDown]
    split
    · exact ih _ _
    · rfl

lemma specNormalizeUp_eq (f : ℕ) : ∀ (b : ℚ) (m : ℕ),
    specNormalizeUp f b m = normUp f b m := by
  induction f with
  | zero => intro b m; rfl
  | succ f ih =>
    intro b m
    simp only [specNormalizeUp, normUp]
    split
    · exact ih _ _
    · rfl

/-- The first loop only divides: its result is the initial base divided by
a power of ten matching the exponent gain. -/
lemma normDown_div_pow (f : ℕ) : ∀ (b : ℚ) (m : ℕ),
    ∃ k, normDown f b m = (b / 10 ^ k, m + k) := by
  induction f with
  | zero => intro b m; exact ⟨0, by simp [normDown]⟩
  | succ f ih =>
    intro b m
    simp only [normDown]
    split
    · obtain ⟨k, hk⟩ := ih (b / 10) (m + 1)
      refine ⟨k + 1, hk.trans ?_⟩
      rw [div_div, ← pow_succ']
      rw [Prod.mk.injEq]
      exact ⟨rfl, by omega⟩
    · exact ⟨0, by simp⟩

/-- The second loop does nothing when the base is already at least 10. -/
lemma normUp_of_ten_le (f : ℕ) (b : ℚ) (m : ℕ) (h : 10 ≤ b) :
    normUp f b m = (b, m) := by
  cases f with
  | zero => rfl
  | succ f =>
    simp only [normUp]
    rw [if_neg (fun hcon => absurd hcon.1 (not_lt.mpr h))]

/-- Where the truncated value is representable in `int` — in particular on
positive operands below `2^31` — the C cast `(int)(base + 0.5)` agrees with
the spec's `floor(base + 0.5)`. -/
lemma cIntCast_eq_specRound (q : ℚ) (h : 0 < q) (hlt : q + 1/2 < 2147483648) :
    cIntCast (q + 1/2) = specRound q := by
  have h0 : (0:ℚ) ≤ q + 1/2 := by positivity
  have hfl0 : (0:ℤ) ≤ ⌊q + 1/2⌋ := Int.floor_nonneg.mpr h0
  have hfl : ⌊q + 1/2⌋ < (2147483648 : ℤ) := by
    rw [Int.floor_lt]
    push_cast
    linarith
  simp only [cIntCast, specRound]
  rw [if_pos h0,
    if_pos (show (-2147483648 : ℤ) ≤ ⌊q + 1/2⌋ ∧ ⌊q + 1/2⌋ ≤ 2147483647 by omega)]

/-- The decoder's multiplier exponent is at most 10, whatever value the
cast produced: the loops leave the exponent at most 9 and the carry adds at
most one. -/
lemma decode_m_le_ten (R : ℚ) : (rcc_resistance_to_color R).2.2 ≤ 10 := by
  have hp2 : (normDown 9 R 0).2 ≤ 9 := normDown_snd_le 9 R 0 (by norm_num)
  have hq2 : (normUp (normDown 9 R 0).2 (normDown 9 R 0).1 (normDown 9 R 0).2).2 ≤
      (normDown 9 R 0).2 := normUp_snd_le _ _ _
  simp only [rcc_resistance_to_color]
  split
  · dsimp only
    omega
  · dsimp only
    omega

/-! ## Claims about the decoder -/

/-- C1 (counterexample): at resistance `1e19` the decoder does not compute
the spec's algorithm: the normalized base is `1e10`, truncating
`1e10 + 0.5` is not representable in a 32-bit `int` (undefined behavior in
the source), and with the typical `INT_MIN` outcome the decoder returns
garbage digits instead of the algorithm's carry result. -/
theorem decode_1e19_counterexample :
    rcc_resistance_to_color 10000000000000000000 ≠
      specDecode 10000000000000000000 := by
  with_unfolding_all decide

/-- C1 (amended): for every strictly positive resistance `R` below
`(INT_MAX + 0.5) · 10^9` — the range in which the cast operand is
representable, since the first loop stops dividing at exponent 9 — the
decoder computes its result exactly by the spec's algorithm: divide by 10
while `base ≥ 100` and the exponent is below 9, multiply by 10 while
`base < 10` and the exponent is above 0, round half-up via
`floor(base + 0.5)`, carry (`rounded = 10`, exponent + 1) when the rounded
value reaches 100, and split the digits by integer division and remainder
by 10. -/
theorem rcc_resistance_to_color_eq_spec (R : ℚ) (hR : 0 < R)
    (hbound : R < (2147483647 + 1/2) * 10 ^ 9) :
    rcc_resistance_to_color R = specDecode R := by
  have hp1 : 0 < (normDown 9 R 0).1 := normDown_fst_pos 9 R 0 hR
  have hq1 : 0 < (normUp (normDown 9 R 0).2 (normDown 9 R 0).1 (normDown 9 R 0).2).1 :=
    normUp_fst_pos _ _ _ hp1
  have hqlt : (normUp (normDown 9 R 0).2 (normDown 9 R 0).1 (normDown 9 R 0).2).1 + 1/2 <
      2147483648 := by
    by_cases hb : (normDown 9 R 0).1 < 100
    · have := normUp_fst_lt (normDown 9 R 0).2 (normDown 9 R 0).1 (normDown 9 R 0).2 hb
      linarith
    · push_neg at hb
      rw [normUp_of_ten_le _ _ _ (by linarith)]
      have hle : (normDown 9 R 0).2 ≤ 9 := normDown_snd_le 9 R 0 (by norm_num)
      have h9 : ¬ ((normDown 9 R 0).2 < 9) :=
        fun hlt => normDown_exit 9 R 0 (by omega) ⟨hb, hlt⟩
      obtain ⟨k, hk⟩ := normDown_div_pow 9 R 0
      have hk9 : k = 9 := by
        rw [hk] at hle h9
        simp only [Nat.zero_add] at hle h9
        omega
      rw [hk, hk9]
      simp only [Nat.zero_add]
      have hdiv : R / 10 ^ 9 < 2147483647 + 1/2 := by
        rw [div_lt_iff₀ (by positivity)]
        exact hbound
      linarith
  have hcast := cIntCast_eq_specRound _ hq1 hqlt
  simp only [rcc_resistance_to_color, specDecode, specNormalizeDown_eq, specNormalizeUp_eq,
    hcast]

theorem rcc_resistance_to_color_eq_spec_witness :
    ((0 : ℚ) < 250 ∧ (250 : ℚ) < (2147483647 + 1/2) * 10 ^ 9) ∧
    rcc_resistance_to_color 250 = specDecode 250 :=
  ⟨⟨by norm_num, by norm_num⟩,
   rcc_resistance_to_color_eq_spec 250 (by norm_num) (by norm_num)⟩

/-- C3 (counterexample): decoding 996 does not yield multiplier exponent 3. -/
theorem decode_996_counterexample : rcc_resistance_to_color 996 ≠ (1, 0, 3) := by
  with_unfolding_all decide

set_option maxRecDepth 2000 in
/-- C3 (amended): decoding 996 normalizes to base `99.6` (one division, so
exponent 1), rounds to 100, triggers the carry, and yields
`digit1 = 1`, `digit2 = 0`, `multiplierExponent = 2` (i.e. ≈1000 = 10·10²). -/
theorem decode_996_carry :
    normDown 9 996 0 = (498/5, 1) ∧
    cIntCast (498/5 + 1/2) = 100 ∧
    rcc_resistance_to_color 996 = (1, 0, 2) := by
  refine ⟨?_, ?_, ?_⟩ <;> with_unfolding_all decide

/-- C4 (counterexample): the decoder's multiplier exponent can exceed 9: at
resistance `1e11` the carry pushes the exponent from the loop cap 9 to 10. -/
theorem decode_1e11_counterexample :
    (rcc_resistance_to_color 100000000000).2.2 = 10 ∧
    ¬ ((rcc_resistance_to_color 100000000000).2.2 ≤ 9) := by
  constructor <;> with_unfolding_all decide

/-- C4 (amended): for every strictly positive resistance the decoder's
multiplier exponent never exceeds 10 (the normalization loops cap it at 9
and only the rounding carry can push it one step further), and decoding
`1e9` does not exceed exponent 9. -/
theorem decode_exponent_le_ten :
    (∀ R : ℚ, 0 < R → (rcc_resistance_to_color R).2.2 ≤ 10) ∧
    (rcc_resistance_to_color 1000000000).2.2 ≤ 9 := by
  constructor
  · intro R _
    exact decode_m_le_ten R
  · with_unfolding_all decide

theorem decode_exponent_le_ten_witness :
    (0 : ℚ) < 996000000000 ∧ (rcc_resistance_to_color 996000000000).2.2 ≤ 10 :=
  ⟨by norm_num, decode_exponent_le_ten.1 996000000000 (by norm_num)⟩

/-- C5 (counterexample): decoding the resistance 1.0 does not yield
`digit1 = 1, digit2 = 0`. -/
theorem decode_one_counterexample : rcc_resistance_to_color 1 ≠ (1, 0, 0) := by
  with_unfolding_all decide

/-- C5 (amended): decoding the resistance 1.0 yields `digit1 = 0`,
`digit2 = 1`, `multiplierExponent = 0` (the second loop requires
`multiplierExponent > 0` and so never scales `base = 1` up). -/
theorem decode_one : rcc_resistance_to_color 1 = (0, 1, 0) := by
  with_unfolding_all decide

/-- C8: round-trip at an exactly representable value: decoding 4700 yields
`digit1 = 4, digit2 = 7, multiplierExponent = 2`, and encoding `(4, 7, 2)`
yields exactly 4700. -/
theorem roundtrip_4700 :
    rcc_resistance_to_color 4700 = (4, 7, 2) ∧
    rcc_color_to_resistance 4 7 2 = 4700 := by
  constructor
  · with_unfolding_all decide
  · norm_num [rcc_color_to_resistance, multiplier_values]

set_option maxRecDepth 2000 in
/-- C10 (code defect): the claimed in-bounds table access fails beyond the
`int` range.  At resistance `1e19` the first loop stops at exponent 9 and
the normalized base reaches the cast as `1e10`: the truncated value
`10000000000` of `base + 0.5` exceeds `INT_MAX = 2147483647`, so the
source's cast `(int)(base + 0.5)` is undefined behavior, and with the
typical x86-64 outcome `INT_MIN` the decoder computes `d1 = -214748364` and
`d2 = -8`, far outside `[0, 9]`: the read `digit_color_names[d1]` is out of
bounds. -/
theorem decode_overflow_out_of_bounds :
    (normDown 9 10000000000000000000 0).2 = 9 ∧
    ⌊(normUp (normDown 9 10000000000000000000 0).2 (normDown 9 10000000000000000000 0).1
        (normDown 9 10000000000000000000 0).2).1 + 1/2⌋ = 10000000000 ∧
    (2147483647 : ℤ) < 10000000000 ∧
    rcc_resistance_to_color 10000000000000000000 = (-214748364, -8, 9) ∧
    (rcc_resistance_to_color 10000000000000000000).1 < 0 := by
  refine ⟨?_, ?_, ?_, ?_, ?_⟩ <;> with_unfolding_all decide

/-! ## Claims about the encoder -/

/-- C2: for all digits in `[0,9]` and multiplier index in `[0,11]` the
encoder produces `(digit1*10 + digit2) * multiplierValue(multiplierIndex)`
exactly — including the fractional gold (×0.1) and silver (×0.01) entries —
and the result is a non-negative rational. -/
theorem rcc_color_to_resistance_correct (b1 b2 m : ℕ)
    (_h1 : b1 ≤ 9) (_h2 : b2 ≤ 9) (hm : m ≤ 11) :
    rcc_color_to_resistance b1 b2 m = ((b1 : ℚ) * 10 + (b2 : ℚ)) * multiplierValue m ∧
    0 ≤ rcc_color_to_resistance b1 b2 m := by
  have htab : multiplier_values.getD m 0 = multiplierValue m := by
    interval_cases m <;> norm_num [multiplier_values, multiplierValue]
  have hnn : (0 : ℚ) ≤ multiplier_values.getD m 0 := by
    interval_cases m <;> norm_num [multiplier_values]
  constructor
  · rw [rcc_color_to_resistance, htab]
  · exact mul_nonneg (by positivity) hnn

theorem rcc_color_to_resistance_correct_witness :
    rcc_color_to_resistance 3 9 10 = ((3 : ℚ) * 10 + (9 : ℚ)) * multiplierValue 10 ∧
    0 ≤ rcc_color_to_resistance 3 9 10 :=
  rcc_color_to_resistance_correct 3 9 10 (by norm_num) (by norm_num) (by norm_num)

/-! ## Claim about the formatter -/

/-- C6: the formatter selects unit and scaled value by exactly three tiers —
`|v| ≥ 1e6` displays `v/1e6` with the mega label, else `|v| ≥ 1e3` displays
`v/1e3` with the kilo label, else `v` with the base label — using the fixed
`%.4g` (4 significant digits) format, and in particular 4700 renders as
4.7 kilo-ohms, 999 with the base unit, and 2500000 as 2.5 mega-ohms. -/
theorem print_resistance_value_tiers :
    (∀ v : ℚ,
      (1000000 ≤ |v| →
        print_resistance_value v = (v / 1000000, ResistanceUnit.megaOhm)) ∧
      (|v| < 1000000 → 1000 ≤ |v| →
        print_resistance_value v = (v / 1000, ResistanceUnit.kiloOhm)) ∧
      (|v| < 1000 → print_resistance_value v = (v, ResistanceUnit.ohm))) ∧
    print_resistance_value 4700 = (47/10, ResistanceUnit.kiloOhm) ∧
    print_resistance_value 999 = (999, ResistanceUnit.ohm) ∧
    print_resistance_value 2500000 = (5/2, ResistanceUnit.megaOhm) ∧
    print_resistance_format = "Approx resistance: %.4g %s\n" := by
  have habs : ∀ v : ℚ, 0 < v → |v| = v := fun v hv => abs_of_pos hv
  refine ⟨fun v => ⟨fun h => ?_, fun ha hb => ?_, fun h => ?_⟩, ?_, ?_, ?_, rfl⟩
  · simp only [print_resistance_value]
    rw [if_pos h]
  · simp only [print_resistance_value]
    rw [if_neg (by linarith), if_pos hb]
  · simp only [print_resistance_value]
    rw [if_neg (by linarith), if_neg (by linarith)]
  · simp only [print_resistance_value]
    rw [habs 4700 (by norm_num), if_neg (by norm_num), if_pos (by norm_num)]
    norm_num
  · simp only [print_resistance_value]
    rw [habs 999 (by norm_num), if_neg (by norm_num), if_neg (by norm_num)]
  · simp only [print_resistance_value]
    rw [habs 2500000 (by norm_num), if_pos (by norm_num)]
    norm_num

theorem print_resistance_value_tiers_witness :
    |(999 : ℚ)| < 1000 ∧ print_resistance_value 999 = (999, ResistanceUnit.ohm) :=
  ⟨by rw [abs_of_pos] <;> norm_num,
   (print_resistance_value_tiers.1 999).2.2 (by rw [abs_of_pos] <;> norm_num)⟩

/-! ## Claim about the input reader -/

/-- One step of the retry loop, stated through the single-attempt predicate:
a line either passes all three checks and is returned with no prior
rejections, or fails one of them and the loop moves on (counting one
diagnostic). -/
lemma read_int_cons (min max : ℤ) (l : String) (rest : List String) :
    read_int min max (l :: rest) =
      match validLine min max l with
      | some v => some (v, 0)
      | none => bumpAttempt (read_int min max rest) := by
  simp only [read_int, validLine]
  rcases strtol l.data with _ | ⟨val, endp⟩
  · rfl
  · dsimp only
    by_cases ht : trailing_ok endp
    · by_cases hr : val < min ∨ max < val
      · rw [if_pos ht, if_pos hr, if_neg (by omega)]
      · rw [if_pos ht, if_neg hr, if_pos ⟨ht, by omega⟩]
    · rw [if_neg ht, if_neg (by simp [ht])]

/-- C7: whenever the input stream contains a valid line — one whose text
parses as an integer followed only by whitespace, with a value inside
`[min, max]` — `read_int` rejects every earlier line with one diagnostic
each and returns the value of the first such line; in particular on the
lines `"abc"`, `"15"`, `"5"` with range `[0, 9]` it rejects the first two
attempts and returns 5. -/
theorem read_int_first_valid :
    (∀ (min max : ℤ), min ≤ max →
      ∀ (pre : List String) (l : String) (post : List String) (v : ℤ),
      (∀ x ∈ pre, validLine min max x = none) → validLine min max l = some v →
      read_int min max (pre ++ l :: post) = some (v, pre.length)) ∧
    read_int 0 9 ["abc", "15", "5"] = some (5, 2) := by
  constructor
  · intro min max hmn pre
    induction pre with
    | nil =>
      intro l post v hpre hl
      rw [List.nil_append, read_int_cons, hl]
      rfl
    | cons x pre ih =>
      intro l post v hpre hl
      rw [List.cons_append, read_int_cons, hpre x (by simp),
        ih l post v (fun y hy => hpre y (by simp [hy])) hl]
      rfl
  · decide

theorem read_int_first_valid_witness :
    read_int 2 7 (["x", "99"] ++ "6" :: []) = some (6, 2) :=
  read_int_first_valid.1 2 7 (by norm_num) ["x", "99"] "6" [] 6
    (by decide) (by decide)

/-! ## Claim about the save step -/

/-- C9: the save step appends exactly one line (the summary) to the log if
and only if the confirmation response's first character is `'y'` or `'Y'`;
any other response — including absence of input — leaves the log
unchanged. -/
theorem ask_and_save_appends_iff (summary : String) (response : Option String)
    (log : List String) :
    (ask_and_save summary response log = log ++ [summary] ↔
      responseAccepts response) ∧
    (¬ responseAccepts response → ask_and_save summary response log = log) := by
  have hne : log ≠ log ++ [summary] := by
    intro h
    have := congrArg List.length h
    simp at this
  rcases response with _ | s
  · constructor
    · constructor
      · intro h
        exact absurd h hne
      · intro ⟨s, hs, _⟩
        exact absurd hs (by simp)
    · intro _
      rfl
  · rcases hh : s.data.head? with _ | c
    · constructor
      · constructor
        · intro h
          rw [show ask_and_save summary (some s) log = log by
            simp [ask_and_save, hh]] at h
          exact absurd h hne
        · intro ⟨t, ht, hy⟩
          obtain rfl : s = t := by injection ht
          rcases hy with hy | hy <;> rw [hh] at hy <;> exact absurd hy (by simp)
      · intro _
        simp [ask_and_save, hh]
    · by_cases hc : c = 'y' ∨ c = 'Y'
      · constructor
        · constructor
          · intro _
            exact ⟨s, rfl, by rw [hh]; rcases hc with h | h <;> [exact Or.inl (by rw [h]); exact Or.inr (by rw [h])]⟩
          · intro _
            simp [ask_and_save, hh, hc]
        · intro hn
          exact absurd ⟨s, rfl, by rw [hh]; rcases hc with h | h <;> [exact Or.inl (by rw [h]); exact Or.inr (by rw [h])]⟩ hn
      · constructor
        · constructor
          · intro h
            rw [show ask_and_save summary (some s) log = log by
              simp [ask_and_save, hh, hc]] at h
            exact absurd h hne
          · intro ⟨t, ht, hy⟩
            obtain rfl : s = t := by injection ht
            rw [hh] at hy
            refine absurd ?_ hc
            rcases hy with hy | hy <;> [exact Or.inl (by injection hy); exact Or.inr (by injection hy)]
        · intro _
          simp [ask_and_save, hh, hc]

theorem ask_and_save_appends_iff_witness :
    (ask_and_save "summary line" (some "y") ["old"] = ["old"] ++ ["summary line"]) ∧
    (ask_and_save "summary line" none ["old"] = ["old"]) :=
  ⟨(ask_and_save_appends_iff "summary line" (some "y") ["old"]).1.mpr
      ⟨"y", rfl, Or.inl rfl⟩,
   (ask_and_save_appends_iff "summary line" none ["old"]).2
      (by intro ⟨s, hs, _⟩; exact absurd hs (by simp))⟩

end Funcs
